import Mathlib

set_option maxHeartbeats 1000000
set_option maxRecDepth 100000

/-! Shallow embedding of the ffmpeg-api service (src/main.py): a
content-addressed upload cache, per-job temp workspaces, ffmpeg
invocation, and file cleanup.  Directories are modelled as listings of
(name, content) pairs; the external tool and the OS failure modes are
oracles passed explicitly. -/

/-- Byte sequences (each entry one byte value). -/
abbrev Bytes := List Nat

/-- A flat directory: a listing of (file name, file content) pairs.
Real directories have unique names; every write below keeps at most one
entry per name. -/
abbrev Dir := List (String × Bytes)

/-- Existence test for a file name (`os.path.exists` on this directory). -/
def fsHas (p : String) (d : Dir) : Bool := d.any (fun e => e.1 == p)

/-- Remove a file name from a directory (`os.remove` / `Path.unlink`,
restricted to the directory listing). -/
def fsRemove (p : String) (d : Dir) : Dir := d.filter (fun e => !(e.1 == p))

/-- Write a file (`open(path, "wb")` followed by a full write): afterwards
the name maps to exactly the given content, and only once. -/
def fsWrite (p : String) (c : Bytes) (d : Dir) : Dir :=
  d.filter (fun e => !(e.1 == p)) ++ [(p, c)]

/-- Read a file's content by name. -/
def fsGet (p : String) (d : Dir) : Option Bytes :=
  (d.find? (fun e => e.1 == p)).map (fun e => e.2)

/-- Python `str.isspace` characters relevant to `str.split()` with no
separator argument. -/
def pyIsSpace (c : Char) : Bool :=
  c == ' ' || c == '\t' || c == '\n' || c == '\r' || c == '\x0b' || c == '\x0c'

/-- Helper for `pySplit`: walks the characters keeping the current token
(reversed); runs of whitespace separate tokens and produce no empties. -/
def pySplitAux : List Char → List Char → List String
  | [], [] => []
  | [], cur => [String.mk cur.reverse]
  | c :: cs, cur =>
    if pyIsSpace c then
      match cur with
      | [] => pySplitAux cs []
      | _ :: _ => String.mk cur.reverse :: pySplitAux cs []
    else pySplitAux cs (c :: cur)

/-- Python `str.split()` with no arguments: split on runs of whitespace,
discarding empty tokens (used for the raw ffmpeg parameter string). -/
def pySplit (s : String) : List String := pySplitAux s.data []

/-- Final path component (the part after the last '/'), as used by
`pathlib.PurePath.name`. -/
def lastComponent (s : String) : String :=
  String.mk (s.data.reverse.takeWhile (fun c => !(c == '/'))).reverse

/-- Python `pathlib.PurePath.suffix`: the extension of the final
component, i.e. `name[i:]` for the last dot index `i` when
`0 < i < len(name) - 1`, else the empty string. -/
def pathSuffix (s : String) : String :=
  let name := lastComponent s
  let rev := name.data.reverse
  let revTail := rev.takeWhile (fun c => !(c == '.'))
  match rev.dropWhile (fun c => !(c == '.')) with
  | [] => ""
  | _ :: restA =>
    if revTail.isEmpty || restA.isEmpty then ""
    else String.mk ('.' :: revTail.reverse)

/-- Python `pathlib.PurePath.stem`: the final component without its
suffix. -/
def pathStem (s : String) : String :=
  let name := lastComponent s
  let suf := pathSuffix s
  String.mk (name.data.take (name.data.length - suf.data.length))

/-- Glob pattern matching over one path component, as performed by
`Path.glob` on patterns of the shape used here: `*` matches any run of
characters, `?` matches one character, all other pattern characters
match themselves literally (the patterns built by the service never
contain bracket classes). -/
def globMatch : List Char → List Char → Bool
  | [], [] => true
  | [], _ :: _ => false
  | '*' :: ps, name => name.tails.any (fun suf => globMatch ps suf)
  | '?' :: _, [] => false
  | '?' :: ps, _ :: ns => globMatch ps ns
  | _ :: _, [] => false
  | p :: ps, n :: ns => p == n && globMatch ps ns

/-- `list(DIR.glob(pattern))`: the names in the directory matching the
pattern, in listing order. -/
def globFiles (pat : String) (d : Dir) : List String :=
  (d.filter (fun e => globMatch pat.data e.1.data)).map (fun e => e.1)

/-- Lower-case hexadecimal digit, as used by `hexdigest` and `str(uuid)`. -/
def hexChar (n : Nat) : Char :=
  if n < 10 then Char.ofNat (48 + n) else Char.ofNat (87 + n)

/-- Truncation to a 32-bit word. -/
def w32 (n : Nat) : Nat := n % 4294967296

/-- Right rotation of a 32-bit word by `k` bits. -/
def rotr32 (k x : Nat) : Nat := w32 ((x >>> k) ||| (x <<< (32 - k)))

/-- The 64 SHA-256 round constants (FIPS 180-4), written in decimal. -/
def sha256K : List Nat :=
  [1116352408, 1899447441, 3049323471, 3921009573, 961987163,
   1508970993, 2453635748, 2870763221, 3624381080, 310598401,
   607225278, 1426881987, 1925078388, 2162078206, 2614888103,
   3248222580, 3835390401, 4022224774, 264347078, 604807628,
   770255983, 1249150122, 1555081692, 1996064986, 2554220882,
   2821834349, 2952996808, 3210313671, 3336571891, 3584528711,
   113926993, 338241895, 666307205, 773529912, 1294757372,
   1396182291, 1695183700, 1986661051, 2177026350, 2456956037,
   2730485921, 2820302411, 3259730800, 3345764771, 3516065817,
   3600352804, 4094571909, 275423344, 430227734, 506948616,
   659060556, 883997877, 958139571, 1322822218, 1537002063,
   1747873779, 1955562222, 2024104815, 2227730452, 2361852424,
   2428436474, 2756734187, 3204031479, 3329325298]

/-- The eight SHA-256 working variables. -/
structure Sha256St where
  a : Nat
  b : Nat
  c : Nat
  d : Nat
  e : Nat
  f : Nat
  g : Nat
  h : Nat

/-- The SHA-256 initial hash value (FIPS 180-4), written in decimal. -/
def sha256Init : Sha256St :=
  ⟨1779033703, 3144134277, 1013904242, 2773480762,
   1359893119, 2600822924, 528734635, 1541459225⟩

/-- One SHA-256 compression round; `kw` is the (already reduced) sum of the
round constant and the schedule word. -/
def sha256Round (st : Sha256St) (kw : Nat) : Sha256St :=
  let s1 := rotr32 6 st.e ^^^ rotr32 11 st.e ^^^ rotr32 25 st.e
  let ch := (st.e &&& st.f) ^^^ ((st.e ^^^ 4294967295) &&& st.g)
  let t1 := w32 (st.h + s1 + ch + kw)
  let s0 := rotr32 2 st.a ^^^ rotr32 13 st.a ^^^ rotr32 22 st.a
  let mj := (st.a &&& st.b) ^^^ (st.a &&& st.c) ^^^ (st.b &&& st.c)
  let t2 := w32 (s0 + mj)
  ⟨w32 (t1 + t2), st.a, st.b, st.c, w32 (st.d + t1), st.e, st.f, st.g⟩

/-- Message-schedule extension: the word list is kept most-recent-first, so
`w[i-2]`, `w[i-7]`, `w[i-15]`, `w[i-16]` sit at indices 1, 6, 14, 15. -/
def sha256Extend : Nat → List Nat → List Nat
  | 0, ws => ws
  | n + 1, ws =>
    let x15 := ws.getD 14 0
    let x2 := ws.getD 1 0
    let s0 := rotr32 7 x15 ^^^ rotr32 18 x15 ^^^ (x15 >>> 3)
    let s1 := rotr32 17 x2 ^^^ rotr32 19 x2 ^^^ (x2 >>> 10)
    sha256Extend n (w32 (s1 + ws.getD 6 0 + s0 + ws.getD 15 0) :: ws)

/-- Helper for `chunksOf`: consumes the list one element at a time, keeping
the current chunk reversed in the accumulator. -/
def chunksOfAux (n : Nat) : List Nat → List Nat → List (List Nat)
  | [], acc => if acc.isEmpty then [] else [acc.reverse]
  | x :: xs, acc =>
    let acc2 := x :: acc
    if acc2.length == n then acc2.reverse :: chunksOfAux n xs []
    else chunksOfAux n xs acc2

/-- Split a byte list into chunks of `n` bytes (a final shorter chunk is
kept). -/
def chunksOf (n : Nat) (l : List Nat) : List (List Nat) := chunksOfAux n l []

/-- Big-endian 32-bit word from (up to) four bytes. -/
def word4 (l : List Nat) : Nat := l.foldl (fun acc byt => acc * 256 + byt) 0

/-- SHA-256 padding: append `0x80`, zeros to 56 mod 64, then the bit length
as a big-endian 64-bit integer. -/
def sha256Pad (msg : Bytes) : Bytes :=
  let L := msg.length
  let padLen := (119 - L % 64) % 64
  let lenBytes := (List.range 8).map (fun i => ((8 * L) >>> (8 * (7 - i))) % 256)
  msg ++ 128 :: List.replicate padLen 0 ++ lenBytes

/-- Process one 64-byte block. -/
def sha256Block (st : Sha256St) (block : List Nat) : Sha256St :=
  let w16 := (chunksOf 4 block).map word4
  let ws := (sha256Extend 48 w16.reverse).reverse
  let kws := List.zipWith (fun k w => w32 (k + w)) sha256K ws
  let r := kws.foldl sha256Round st
  ⟨w32 (st.a + r.a), w32 (st.b + r.b), w32 (st.c + r.c), w32 (st.d + r.d),
   w32 (st.e + r.e), w32 (st.f + r.f), w32 (st.g + r.g), w32 (st.h + r.h)⟩

/-- The eight 32-bit words of the SHA-256 digest of a byte sequence. -/
def sha256Words (msg : Bytes) : List Nat :=
  let fin := (chunksOf 64 (sha256Pad msg)).foldl sha256Block sha256Init
  [fin.a, fin.b, fin.c, fin.d, fin.e, fin.f, fin.g, fin.h]

/-- Eight lower-case hex digits of one 32-bit word. -/
def hex32 (wd : Nat) : List Char :=
  (List.range 8).map (fun i => hexChar ((wd >>> (4 * (7 - i))) % 16))

/-- `hashlib.sha256(content).hexdigest()`: the 64-character lower-case hex
digest of a byte sequence. -/
def sha256hex (msg : Bytes) : String :=
  String.mk ((sha256Words msg).map hex32).join

/-- Two lower-case hex digits of one byte. -/
def hexByte (b : Nat) : List Char := [hexChar (b / 16 % 16), hexChar (b % 16)]

/-- The byte adjustment performed by `uuid.uuid4()` on 16 random bytes:
byte 6 gets version nibble 4, byte 8 gets the RFC 4122 variant bits. -/
def uuid4Bytes (bs : List Nat) : List Nat :=
  bs.take 6 ++ [bs.getD 6 0 % 16 + 64, bs.getD 7 0, bs.getD 8 0 % 64 + 128]
    ++ (bs.drop 9).take 7

/-- `str(uuid.uuid4())` for the given 16 random bytes: 32 lower-case hex
digits in groups of 8-4-4-4-12 separated by hyphens. -/
def uuidStr (bs : List Nat) : String :=
  let b := uuid4Bytes bs
  let hx := fun (l : List Nat) => (l.map hexByte).join
  String.mk (hx (b.take 4) ++ '-' :: hx ((b.drop 4).take 2) ++ '-' :: hx ((b.drop 6).take 2)
    ++ '-' :: hx ((b.drop 8).take 2) ++ '-' :: hx ((b.drop 10).take 6))

/-- Python `a or b` for an optional string `a`: `b` when `a` is `None` or
empty. -/
def pyOrStr (o : Option String) (dflt : String) : String :=
  match o with
  | some s => if s == "" then dflt else s
  | none => dflt

/-- `filename.rsplit(".", 1)[-1].lower() if "." in filename else "tmp"`:
the lowercased part after the last dot, or `"tmp"`. -/
def inputExtOf (filename : String) : String :=
  if filename.data.contains '.' then
    String.mk ((filename.data.reverse.takeWhile (fun c => !(c == '.'))).reverse.map
      Char.toLower)
  else "tmp"

/-- `str(TEMP_DIR / f"{token}_input.{ext}")`. -/
def inputPathOf (token ext : String) : String :=
  "temp/" ++ token ++ "_input." ++ ext

/-- `str(TEMP_DIR / f"{token}_output.{fmt}")`. -/
def outputPathOf (token fmt : String) : String :=
  "temp/" ++ token ++ "_output." ++ fmt

/-- `str(TEMP_DIR / f"{token}_input{source_path.suffix}")` (the input path
of the convert-by-hash flow: the suffix already carries its dot). -/
def hashInputPathOf (token sourceName : String) : String :=
  "temp/" ++ token ++ "_input" ++ pathSuffix sourceName

/-- `f"{original_name}_converted.{output_format}"` with
`original_name = Path(filename).stem`. -/
def downloadNameOf (filename outputFormat : String) : String :=
  pathStem filename ++ "_converted." ++ outputFormat

/-- The ffmpeg command vector: `["ffmpeg", "-i", input_path]`, then —
only when `params` is truthy — `params.split()` appended, then the
output path. -/
def buildCmd (input_path : String) (params : Option String) (output_path : String) :
    List String :=
  let cmd := ["ffmpeg", "-i", input_path]
  let cmd2 :=
    match params with
    | some p => if !(p == "") then cmd ++ pySplit p else cmd
    | none => cmd
  cmd2 ++ [output_path]

/-- `os.remove(p)`: fails (raises `OSError`) exactly when the failure
oracle says so, otherwise removes the name. -/
def osRemove (failRemove : String → Bool) (p : String) (d : Dir) : Except String Dir :=
  if failRemove p then Except.error "OSError" else Except.ok (fsRemove p d)

/-- `cleanup_files_sync(*paths)`: for each path, if it is truthy and
exists, try `os.remove` and swallow any error. -/
def cleanupFilesSync (failRemove : String → Bool) :
    List (Option String) → Dir → Dir
  | [], d => d
  | none :: rest, d => cleanupFilesSync failRemove rest d
  | some p :: rest, d =>
    if !(p == "") && fsHas p d then
      match osRemove failRemove p d with
      | Except.ok d2 => cleanupFilesSync failRemove rest d2
      | Except.error _ => cleanupFilesSync failRemove rest d
    else cleanupFilesSync failRemove rest d

/-- The same traversal as `cleanupFilesSync`, but in the exception monad:
an uncaught error inside the loop would surface as `Except.error`.  The
`try/except: pass` around `os.remove` is the only handler the source
has, so this function returning `Except.ok` on all inputs is exactly the
claim that `cleanup_files_sync` never propagates an exception. -/
def cleanupFilesSyncE (failRemove : String → Bool) :
    List (Option String) → Dir → Except String Dir
  | [], d => Except.ok d
  | none :: rest, d => cleanupFilesSyncE failRemove rest d
  | some p :: rest, d =>
    if !(p == "") && fsHas p d then
      match osRemove failRemove p d with
      | Except.ok d2 => cleanupFilesSyncE failRemove rest d2
      | Except.error _ => cleanupFilesSyncE failRemove rest d
    else cleanupFilesSyncE failRemove rest d

/-- Behaviour of one `subprocess.run(cmd, capture_output=True)` call: the
exit status, the captured stderr text, and whether (and with what bytes)
the tool wrote the output file. -/
structure ToolRun where
  returncode : Int
  stderr : String
  writesOutput : Bool
  outBytes : Bytes
deriving DecidableEq

/-- Outcome of a conversion request as seen by the client: a delivered
`FileResponse` (path and download name), a raised `HTTPException`
(status, detail text, optional captured stderr), or an exception that
escaped the handler uncaught. -/
inductive ConvertResult where
  | fileResponse (path filename : String)
  | httpError (status : Nat) (error : String) (stderr : Option String)
  | uncaught (msg : String)
deriving DecidableEq

/-- Result of the upload endpoint: hash, extension and cache-relative
path. -/
structure UploadResult where
  hash : String
  ext : String
  path : String
deriving DecidableEq

/-- `upload_video`: hash the content with SHA-256, default the filename to
`video.dat` and the extension to `.mp4`, store the bytes in the cache at
`<hash><ext>`, and return hash, extension and relative path.  The
returned `Dir` is the cache directory afterwards. -/
def uploadVideo (content : Bytes) (fileName : Option String) (cache : Dir) :
    UploadResult × Dir :=
  let videoHash := sha256hex content
  let filename := pyOrStr fileName "video.dat"
  let ext := if pathSuffix filename == "" then ".mp4" else pathSuffix filename
  let filePath := videoHash ++ ext
  (⟨videoHash, ext, filePath⟩, fsWrite filePath content cache)

/-- `convert_video`: stage the upload in the temp directory, run ffmpeg,
and either deliver the output file (its background task then deletes
both workspace paths — the returned `Dir` is the temp directory after
that cleanup has run) or clean up synchronously and raise.  `stage`
injects an exception raised while writing the input file (the file was
already created by `open(input_path, "wb")` when the body write fails);
every exception is caught, cleaned up after, and re-raised as an
`HTTPException`. -/
def convertVideo (token : String) (fileName : Option String) (fileBytes : Bytes)
    (outputFormat : String) (params : Option String) (stage : Option String)
    (tool : List String → ToolRun) (temp : Dir) : ConvertResult × Dir :=
  let filename := pyOrStr fileName ("uploaded." ++ outputFormat)
  let input_path := inputPathOf token (inputExtOf filename)
  let output_path := outputPathOf token outputFormat
  let download_name := downloadNameOf filename outputFormat
  let temp1 := fsWrite input_path [] temp
  match stage with
  | some e =>
    (ConvertResult.httpError 500 e none,
     cleanupFilesSync (fun _ => false) [some input_path, some output_path] temp1)
  | none =>
    let temp2 := fsWrite input_path fileBytes temp1
    let r := tool (buildCmd input_path params output_path)
    let temp3 := if r.writesOutput then fsWrite output_path r.outBytes temp2 else temp2
    if r.returncode ≠ 0 then
      (ConvertResult.httpError 500 "FFmpeg conversion failed" (some r.stderr),
       cleanupFilesSync (fun _ => false) [some input_path, some output_path] temp3)
    else
      (ConvertResult.fileResponse output_path download_name,
       cleanupFilesSync (fun _ => false) [some input_path, some output_path] temp3)

/-- `convert_from_hash`: look up the cached file by
`CACHE_DIR.glob(f"{video_hash}.*")`, 404 when nothing matches, else copy
the first match into the temp directory, run ffmpeg, and deliver or
clean up and raise, as in `convert_video`.  Unlike `convert_video`, the
source has no `try/except` around the staging copy: `stage` injects an
exception raised during the copy (after `open(input_path, "wb")` created
the input file), and that exception propagates uncaught.  On delivery
the returned `Dir` is the temp directory after the background cleanup
has run. -/
def convertFromHash (videoHash outputFormat : String) (params : Option String)
    (token : String) (stage : Option String) (tool : List String → ToolRun)
    (cache temp : Dir) : ConvertResult × Dir :=
  match globFiles (videoHash ++ ".*") cache with
  | [] => (ConvertResult.httpError 404 "Cached video not found" none, temp)
  | sourceName :: _ =>
    let input_path := hashInputPathOf token sourceName
    let output_path := outputPathOf token outputFormat
    let download_name := videoHash ++ "_converted." ++ outputFormat
    let temp1 := fsWrite input_path [] temp
    match stage with
    | some e => (ConvertResult.uncaught e, temp1)
    | none =>
      let temp2 := fsWrite input_path ((fsGet sourceName cache).getD []) temp1
      let r := tool (buildCmd input_path params output_path)
      let temp3 := if r.writesOutput then fsWrite output_path r.outBytes temp2 else temp2
      if r.returncode ≠ 0 then
        (ConvertResult.httpError 500 "FFmpeg conversion failed" (some r.stderr),
         cleanupFilesSync (fun _ => false) [some input_path, some output_path] temp3)
      else
        (ConvertResult.fileResponse output_path download_name,
         cleanupFilesSync (fun _ => false) [some input_path, some output_path] temp3)

/-- Result of the cache-delete endpoint. -/
inductive DeleteResult where
  | error404 (detail : String)
  | ok (deleted : Nat) (message : String)
deriving DecidableEq

/-- `delete_video`: glob the cache for `{video_hash}.*`; 404 when nothing
matches, else unlink every match (the `try/except` swallows unlink
errors; removal is modelled as reliable, so all matches are removed and
counted) and report the count. -/
def deleteVideo (videoHash : String) (cache : Dir) : DeleteResult × Dir :=
  let files := globFiles (videoHash ++ ".*") cache
  if files.isEmpty then (DeleteResult.error404 "Video cache not found", cache)
  else
    (DeleteResult.ok files.length
      ("Deleted " ++ toString files.length ++ " file(s) for hash " ++ videoHash),
     files.foldl (fun d f => fsRemove f d) cache)

/-- Token list described by the spec for claim C4: the whitespace-delimited
tokens of the raw parameter string, none when it is empty or absent. -/
def specTokens (params : Option String) : List String :=
  match params with
  | some p => pySplit p
  | none => []

/-- Whether one pass of `cleanup_files_sync` over `paths` removes the file
named `q`: some listed path equals `q`, is truthy, and its removal does
not fail. -/
def removedBy (paths : List (Option String)) (failRemove : String → Bool)
    (q : String) : Bool :=
  paths.any (fun p? => p? == some q && !(q == "") && !(failRemove q))

/-- Claim C1 (code bug): the spec requires every error path of a conversion
to release the workspace before the error is reported, but in
`convert_from_hash` a staging failure (an exception raised during the
copy into the temp directory, after `open(input_path, "wb")` already
created the input file) propagates uncaught and leaves the staged input
file in the temp directory: the job ends in ERROR while a workspace path
still exists. -/
theorem c1_convert_from_hash_staging_leak :
    (convertFromHash "h" "mp4" none "t" (some "disk full")
        (fun _ => ⟨0, "", false, []⟩) [("h.mp4", [1, 2, 3])] []).1
      = ConvertResult.uncaught "disk full"
    ∧ fsHas "temp/t_input.mp4"
        (convertFromHash "h" "mp4" none "t" (some "disk full")
          (fun _ => ⟨0, "", false, []⟩) [("h.mp4", [1, 2, 3])] []).2 = true :=
  ⟨by decide, by decide⟩

/-- Claim C2: the upload identity of a byte sequence is exactly its SHA-256
hex digest, it depends on nothing but the bytes (same on every call, for
any filename and any prior cache state), and the identity of the bytes
of `b"abc"` is the hex string starting `ba7816bf8f01cfea`. -/
theorem c2_identity_sha256 :
    (∀ (content : Bytes) (fileName : Option String) (cache : Dir),
        (uploadVideo content fileName cache).1.hash = sha256hex content)
    ∧ (∀ (content : Bytes) (f1 f2 : Option String) (c1 c2 : Dir),
        (uploadVideo content f1 c1).1.hash = (uploadVideo content f2 c2).1.hash)
    ∧ (uploadVideo [97, 98, 99] none []).1.hash
        = "ba7816bf8f01cfea414140de5dae2223b00361a396177a9cb410ff61f20015ad"
    ∧ ((uploadVideo [97, 98, 99] none []).1.hash).data.take 16
        = "ba7816bf8f01cfea".data :=
  ⟨fun _ _ _ => rfl, fun _ _ _ _ _ => rfl, by decide, by decide⟩

/-- Claim C4: the command vector handed to the external tool is exactly the
fixed prefix `["ffmpeg", "-i", input]`, then the whitespace-delimited
tokens of the raw parameter string appended verbatim and in order (no
tokens when it is empty or absent), then the single trailing output
path. -/
theorem c4_command_vector :
    (∀ (input_path output_path : String) (params : Option String),
        buildCmd input_path params output_path
          = ["ffmpeg", "-i", input_path] ++ specTokens params ++ [output_path])
    ∧ specTokens (some "") = [] ∧ specTokens none = [] := by
  refine ⟨?_, rfl, rfl⟩
  intro input_path output_path params
  cases params with
  | none => simp [buildCmd, specTokens]
  | some p =>
    by_cases hp : p = ""
    · subst hp
      simp [buildCmd, specTokens, pySplit, pySplitAux]
    · simp [buildCmd, specTokens, hp]

/-- Claim C3 counterexample: the failure result does NOT carry the tool's
exit status code.  Two runs whose tool invocations differ only in the
exit status (1 versus 2, same stderr) produce byte-for-byte identical
outcomes and final states, so no function of the outcome can recover the
exit status. -/
theorem c3_exit_status_not_carried :
    convertVideo "t" (some "a.mp4") [1] "mp4" none none
        (fun _ => ⟨1, "boom", false, []⟩) []
      = convertVideo "t" (some "a.mp4") [1] "mp4" none none
          (fun _ => ⟨2, "boom", false, []⟩) []
    ∧ (1 : Int) ≠ 2 :=
  ⟨by decide, by decide⟩

/-- Claim C3 as amended: the external-tool outcome is classified solely by
exit status — zero yields success with the file at the output path
returned, non-zero yields a failure carrying the captured stderr text
and a fixed HTTP 500 status (the tool's exit status code itself is not
included in the failure result) — and the output path's existence is
never inspected: the classification below holds for every tool
behaviour, including one that writes nothing to the output path, and for
every prior temp-directory state.  Stated for both conversion flows. -/
theorem c3_classification_by_exit_status
    (token : String) (fileName : Option String) (fileBytes : Bytes)
    (outputFormat : String) (params : Option String)
    (tool : List String → ToolRun) (temp : Dir)
    (videoHash : String) (cache : Dir) (src : String) (rest : List String)
    (hglob : globFiles (videoHash ++ ".*") cache = src :: rest) :
    ((tool (buildCmd (inputPathOf token (inputExtOf (pyOrStr fileName
          ("uploaded." ++ outputFormat)))) params
          (outputPathOf token outputFormat))).returncode = 0 →
      (convertVideo token fileName fileBytes outputFormat params none tool temp).1
        = ConvertResult.fileResponse (outputPathOf token outputFormat)
            (downloadNameOf (pyOrStr fileName ("uploaded." ++ outputFormat))
              outputFormat))
    ∧ ((tool (buildCmd (inputPathOf token (inputExtOf (pyOrStr fileName
          ("uploaded." ++ outputFormat)))) params
          (outputPathOf token outputFormat))).returncode ≠ 0 →
      (convertVideo token fileName fileBytes outputFormat params none tool temp).1
        = ConvertResult.httpError 500 "FFmpeg conversion failed"
            (some (tool (buildCmd (inputPathOf token (inputExtOf (pyOrStr fileName
              ("uploaded." ++ outputFormat)))) params
              (outputPathOf token outputFormat))).stderr))
    ∧ ((tool (buildCmd (hashInputPathOf token src) params
          (outputPathOf token outputFormat))).returncode = 0 →
      (convertFromHash videoHash outputFormat params token none tool cache temp).1
        = ConvertResult.fileResponse (outputPathOf token outputFormat)
            (videoHash ++ "_converted." ++ outputFormat))
    ∧ ((tool (buildCmd (hashInputPathOf token src) params
          (outputPathOf token outputFormat))).returncode ≠ 0 →
      (convertFromHash videoHash outputFormat params token none tool cache temp).1
        = ConvertResult.httpError 500 "FFmpeg conversion failed"
            (some (tool (buildCmd (hashInputPathOf token src) params
              (outputPathOf token outputFormat))).stderr)) := by
  refine ⟨?_, ?_, ?_, ?_⟩
  · intro h0
    simp [convertVideo, h0]
  · intro h0
    simp [convertVideo, h0]
  · intro h0
    simp [convertFromHash, hglob, h0]
  · intro h0
    simp [convertFromHash, hglob, h0]

/-- Witness for `c3_classification_by_exit_status`: both classifications at
concrete inputs. -/
theorem c3_classification_by_exit_status_witness :
    (convertVideo "t" (some "a.mp4") [1] "mp4" none none
        (fun _ => ⟨0, "", true, [9]⟩) []).1
      = ConvertResult.fileResponse "temp/t_output.mp4" "a_converted.mp4"
    ∧ (convertFromHash "h" "mp4" none "t" none
        (fun _ => ⟨1, "boom", false, []⟩) [("h.mp4", [5])] []).1
      = ConvertResult.httpError 500 "FFmpeg conversion failed" (some "boom") := by
  constructor
  · have h := (c3_classification_by_exit_status "t" (some "a.mp4") [1] "mp4" none
      (fun _ => ⟨0, "", true, [9]⟩) [] "h" [("h.mp4", [5])] "h.mp4" []
      (by decide)).1 (by decide)
    rw [h]; decide
  · have h := (c3_classification_by_exit_status "t" (some "a.mp4") [1] "mp4" none
      (fun _ => ⟨1, "boom", false, []⟩) [] "h" [("h.mp4", [5])] "h.mp4" []
      (by decide)).2.2.2 (by decide)
    rw [h]

/-- Claim C6: convert-by-identity with an identity whose glob pattern
matches no cached file returns NotFound (HTTP 404) and leaves the temp
directory untouched: no workspace path is written, whatever the job
token, staging behaviour and tool behaviour would have been. -/
theorem c6_unknown_identity_not_found (videoHash outputFormat : String)
    (params : Option String) (token : String) (stage : Option String)
    (tool : List String → ToolRun) (cache temp : Dir)
    (hnone : globFiles (videoHash ++ ".*") cache = []) :
    convertFromHash videoHash outputFormat params token stage tool cache temp
      = (ConvertResult.httpError 404 "Cached video not found" none, temp) := by
  simp [convertFromHash, hnone]

/-- Witness for `c6_unknown_identity_not_found`: an identity that was never
uploaded, against a non-empty cache and a non-empty temp directory. -/
theorem c6_unknown_identity_not_found_witness :
    convertFromHash "zzz" "mp4" none "t" none (fun _ => ⟨0, "", false, []⟩)
        [("x.mp4", [1])] [("temp/other", [2])]
      = (ConvertResult.httpError 404 "Cached video not found" none,
         [("temp/other", [2])]) :=
  c6_unknown_identity_not_found "zzz" "mp4" none "t" none
    (fun _ => ⟨0, "", false, []⟩) [("x.mp4", [1])] [("temp/other", [2])] (by decide)

theorem fsWrite_fsWrite (p : String) (c : Bytes) (d : Dir) :
    fsWrite p c (fsWrite p c d) = fsWrite p c d := by
  simp only [fsWrite, List.filter_append, List.filter_filter]
  simp

theorem fsWrite_filter_self (p : String) (c : Bytes) (d : Dir) :
    (fsWrite p c d).filter (fun e => e.1 == p) = [(p, c)] := by
  simp only [fsWrite, List.filter_append, List.filter_filter]
  simp

theorem find?_append_left_none {α : Type} (pr : α → Bool) (l1 l2 : List α)
    (h : ∀ x ∈ l1, pr x = false) : (l1 ++ l2).find? pr = l2.find? pr := by
  induction l1 with
  | nil => rfl
  | cons x xs ih =>
    have hx := h x (List.mem_cons_self x xs)
    simp only [List.cons_append, List.find?, hx]
    exact ih (fun y hy => h y (List.mem_cons_of_mem x hy))

theorem fsGet_fsWrite (p : String) (c : Bytes) (d : Dir) :
    fsGet p (fsWrite p c d) = some c := by
  unfold fsGet fsWrite
  rw [find?_append_left_none]
  · simp [List.find?]
  · intro x hx
    have := (List.mem_filter.mp hx).2
    simpa using this

/-- Claim C5: uploading the same bytes twice with the same filename yields
the same identity and the same response, leaves the cache in the very
state the first upload left it (the second put is a no-op in effect),
with exactly one file for that identity/extension pair, whose content is
the uploaded bytes. -/
theorem c5_upload_idempotent (content : Bytes) (fileName : Option String)
    (cache : Dir) :
    (uploadVideo content fileName (uploadVideo content fileName cache).2).1
      = (uploadVideo content fileName cache).1
    ∧ (uploadVideo content fileName (uploadVideo content fileName cache).2).2
      = (uploadVideo content fileName cache).2
    ∧ ((uploadVideo content fileName (uploadVideo content fileName cache).2).2.filter
        (fun e => e.1 == (uploadVideo content fileName cache).1.path)).length = 1
    ∧ fsGet (uploadVideo content fileName cache).1.path
        (uploadVideo content fileName (uploadVideo content fileName cache).2).2
      = some content := by
  refine ⟨rfl, ?_, ?_, ?_⟩
  · simp only [uploadVideo]
    exact fsWrite_fsWrite _ _ _
  · simp only [uploadVideo]
    rw [fsWrite_fsWrite, fsWrite_filter_self]
    rfl
  · simp only [uploadVideo]
    rw [fsWrite_fsWrite, fsGet_fsWrite]

theorem mem_globFiles (q pat : String) (d : Dir) :
    q ∈ globFiles pat d
      ↔ ∃ e, e ∈ d ∧ globMatch pat.data e.1.data = true ∧ e.1 = q := by
  unfold globFiles
  rw [List.mem_map]
  constructor
  · rintro ⟨e, he, rfl⟩
    exact ⟨e, (List.mem_filter.mp he).1, (List.mem_filter.mp he).2, rfl⟩
  · rintro ⟨e, he, hm, rfl⟩
    exact ⟨e, List.mem_filter.mpr ⟨he, hm⟩, rfl⟩

theorem foldl_fsRemove_eq_filter (names : List String) (d : Dir) :
    names.foldl (fun acc f => fsRemove f acc) d
      = d.filter (fun e => !(names.any (fun f => e.1 == f))) := by
  induction names generalizing d with
  | nil => simp
  | cons n ns ih =>
    rw [List.foldl_cons, ih]
    unfold fsRemove
    rw [List.filter_filter]
    apply List.filter_congr
    intro e _
    cases h1 : (e.1 == n) <;> cases h2 : ns.any (fun f => e.1 == f) <;>
      simp [List.any_cons, h1, h2]

theorem globFiles_any_name (pat : String) (cache : Dir) (e : String × Bytes)
    (he : e ∈ cache) :
    (globFiles pat cache).any (fun f => e.1 == f) = globMatch pat.data e.1.data := by
  cases hgm : globMatch pat.data e.1.data with
  | true =>
    rw [List.any_eq_true]
    exact ⟨e.1, (mem_globFiles e.1 pat cache).mpr ⟨e, he, hgm, rfl⟩,
      beq_self_eq_true e.1⟩
  | false =>
    rw [List.any_eq_false]
    intro f hf hbeq
    obtain ⟨e2, _, hm2, hq⟩ := (mem_globFiles f pat cache).mp hf
    have hef : e.1 = f := beq_iff_eq.mp hbeq
    rw [hq, ← hef, hgm] at hm2
    exact Bool.false_ne_true hm2

theorem deleteVideo_snd (videoHash : String) (cache : Dir)
    (h : globFiles (videoHash ++ ".*") cache ≠ []) :
    (deleteVideo videoHash cache).2
      = cache.filter (fun e => !(globMatch (videoHash ++ ".*").data e.1.data)) := by
  have hie : (globFiles (videoHash ++ ".*") cache).isEmpty = false :=
    List.isEmpty_eq_false.mpr h
  simp only [deleteVideo, hie, Bool.false_eq_true, if_false]
  rw [foldl_fsRemove_eq_filter]
  apply List.filter_congr
  intro e he
  rw [globFiles_any_name _ _ _ he]

/-- Claim C7: deleting an identity whose glob pattern matches N stored
files returns NotFound when N = 0; when N ≥ 1 it removes all N matching
files (the remaining cache is exactly the non-matching entries) and
reports the count N, and a subsequent lookup of the same identity
(`find`, i.e. the glob, and hence convert-by-identity) reports
NotFound. -/
theorem c7_delete_contract (videoHash : String) (cache : Dir) :
    (globFiles (videoHash ++ ".*") cache = [] →
      deleteVideo videoHash cache
        = (DeleteResult.error404 "Video cache not found", cache))
    ∧ (globFiles (videoHash ++ ".*") cache ≠ [] →
      (deleteVideo videoHash cache).1
          = DeleteResult.ok (globFiles (videoHash ++ ".*") cache).length
              ("Deleted " ++ toString (globFiles (videoHash ++ ".*") cache).length
                ++ " file(s) for hash " ++ videoHash)
        ∧ (deleteVideo videoHash cache).2
            = cache.filter (fun e => !(globMatch (videoHash ++ ".*").data e.1.data))
        ∧ globFiles (videoHash ++ ".*") (deleteVideo videoHash cache).2 = []
        ∧ ∀ (outputFormat : String) (params : Option String) (token : String)
            (stage : Option String) (tool : List String → ToolRun) (temp : Dir),
            convertFromHash videoHash outputFormat params token stage tool
              (deleteVideo videoHash cache).2 temp
              = (ConvertResult.httpError 404 "Cached video not found" none, temp)) := by
  constructor
  · intro h
    simp [deleteVideo, h]
  · intro h
    have hie : (globFiles (videoHash ++ ".*") cache).isEmpty = false :=
      List.isEmpty_eq_false.mpr h
    have hsnd := deleteVideo_snd videoHash cache h
    have hglob2 : globFiles (videoHash ++ ".*") (deleteVideo videoHash cache).2 = [] := by
      rw [hsnd]
      simp only [globFiles, List.filter_filter]
      have : ∀ e ∈ cache,
          (globMatch (videoHash ++ ".*").data e.1.data
            && !(globMatch (videoHash ++ ".*").data e.1.data)) = false := by
        intro e _
        exact Bool.and_not_self _
      rw [List.filter_congr this, List.filter_false]
      rfl
    refine ⟨?_, hsnd, hglob2, ?_⟩
    · simp [deleteVideo, hie]
    · intro outputFormat params token stage tool temp
      simp [convertFromHash, hglob2]

/-- Witness for `c7_delete_contract`: deleting hash `h` from a cache with
two matching files and one non-matching file. -/
theorem c7_delete_contract_witness :
    (deleteVideo "h" [("h.mp4", [1]), ("h.avi", [2]), ("x.mp4", [3])]).1
      = DeleteResult.ok 2 "Deleted 2 file(s) for hash h"
    ∧ (deleteVideo "h" [("h.mp4", [1]), ("h.avi", [2]), ("x.mp4", [3])]).2
      = [("x.mp4", [3])] := by
  have h := (c7_delete_contract "h" [("h.mp4", [1]), ("h.avi", [2]), ("x.mp4", [3])]).2
    (by decide)
  constructor
  · rw [h.1]; decide
  · rw [h.2.1]; decide

theorem globMatch_star_cons (ps name : List Char) :
    globMatch ('*' :: ps) name = name.tails.any (fun suf => globMatch ps suf) := by
  cases name <;> rfl

theorem globMatch_star (l : List Char) : globMatch ['*'] l = true := by
  induction l with
  | nil => rfl
  | cons c cs ih =>
    rw [globMatch_star_cons, List.tails_cons, List.any_cons]
    rw [globMatch_star_cons] at ih
    rw [ih, Bool.or_true]

theorem globMatch_star_dot_star (l : List Char) (h : '.' ∈ l) :
    globMatch ['*', '.', '*'] l = true := by
  induction l with
  | nil => exact absurd h (List.not_mem_nil '.')
  | cons c cs ih =>
    rw [globMatch_star_cons, List.tails_cons, List.any_cons]
    rcases List.mem_cons.mp h with hc | hcs
    · have hfst : globMatch ['.', '*'] (c :: cs) = true := by
        show (('.' : Char) == c && globMatch ['*'] cs) = true
        rw [← hc, globMatch_star]
        rfl
      rw [hfst, Bool.true_or]
    · have h2 := ih hcs
      rw [globMatch_star_cons] at h2
      rw [h2, Bool.or_true]

/-- Claim C10: cache lookup and delete-by-identity interpolate the
caller-supplied identity into the glob pattern `identity.*` instead of
comparing it as a literal prefix.  For the identity `"*"` the lookup
returns files whose names do not start with `"*"`, and delete removes
every file whose name contains a dot — every file the upload endpoint
can have written, hence every file in an upload-populated cache root. -/
theorem c10_glob_interpolation :
    (globFiles ("*" ++ ".*") [("aaaa.mp4", [1]), ("bbbb.avi", [2])]
        = ["aaaa.mp4", "bbbb.avi"]
      ∧ ("aaaa.mp4".data.take 1 = "*".data) = False)
    ∧ ∀ (cache : Dir), (∀ e ∈ cache, '.' ∈ e.1.data) →
        (deleteVideo "*" cache).2 = [] := by
  refine ⟨⟨by decide, by decide⟩, ?_⟩
  intro cache hdot
  have hpat : ("*" ++ ".*").data = ['*', '.', '*'] := by decide
  have hall : ∀ e ∈ cache, globMatch ("*" ++ ".*").data e.1.data = true := by
    intro e he
    rw [hpat]
    exact globMatch_star_dot_star _ (hdot e he)
  cases hc : cache with
  | nil => decide
  | cons e es =>
    have hne : globFiles ("*" ++ ".*") cache ≠ [] := by
      intro hemp
      have hmem : e.1 ∈ globFiles ("*" ++ ".*") cache := by
        rw [mem_globFiles]
        exact ⟨e, by rw [hc]; exact List.mem_cons_self e es,
          hall e (by rw [hc]; exact List.mem_cons_self e es), rfl⟩
      rw [hemp] at hmem
      exact List.not_mem_nil _ hmem
    rw [← hc, deleteVideo_snd "*" cache hne]
    rw [List.filter_eq_nil_iff]
    intro a ha
    rw [hall a ha]
    decide

/-- Witness for `c10_glob_interpolation`: delete with identity `"*"`
empties a two-file cache written by the upload endpoint. -/
theorem c10_glob_interpolation_witness :
    (deleteVideo "*" [("aaaa.mp4", [1]), ("bbbb.avi", [2])]).2 = [] :=
  c10_glob_interpolation.2 [("aaaa.mp4", [1]), ("bbbb.avi", [2])] (by decide)

theorem removedBy_cons (p? : Option String) (rest : List (Option String))
    (failRemove : String → Bool) (q : String) :
    removedBy (p? :: rest) failRemove q
      = ((p? == some q && !(q == "") && !(failRemove q))
          || removedBy rest failRemove q) := by
  simp [removedBy, List.any_cons]

theorem cleanupFilesSync_eq_filter (failRemove : String → Bool)
    (paths : List (Option String)) (d : Dir) :
    cleanupFilesSync failRemove paths d
      = d.filter (fun e => !(removedBy paths failRemove e.1)) := by
  induction paths generalizing d with
  | nil => simp [cleanupFilesSync, removedBy]
  | cons p? rest ih =>
    cases p? with
    | none =>
      have hstep : cleanupFilesSync failRemove (none :: rest) d
          = cleanupFilesSync failRemove rest d := rfl
      rw [hstep, ih]
      apply List.filter_congr
      intro e _
      rw [removedBy_cons]
      simp
    | some p =>
      by_cases hg : (!(p == "") && fsHas p d) = true
      · have hpne : (p == "") = false := by
          rcases Bool.and_eq_true_iff.mp hg with ⟨h1, _⟩
          simp at h1
          simp [h1]
        by_cases hf : failRemove p = true
        · have hstep : cleanupFilesSync failRemove (some p :: rest) d
              = cleanupFilesSync failRemove rest d := by
            simp [cleanupFilesSync, osRemove, hg, hf]
          rw [hstep, ih]
          apply List.filter_congr
          intro e _
          rw [removedBy_cons]
          by_cases he : p = e.1
          · subst he
            simp [hf]
          · have : (p == e.1) = false := beq_eq_false_iff_ne.mpr he
            simp [this]
        · have hstep : cleanupFilesSync failRemove (some p :: rest) d
              = cleanupFilesSync failRemove rest (fsRemove p d) := by
            simp [cleanupFilesSync, osRemove, hg, hf]
          rw [hstep, ih]
          unfold fsRemove
          rw [List.filter_filter]
          apply List.filter_congr
          intro e _
          rw [removedBy_cons]
          by_cases he : p = e.1
          · subst he
            simp [hpne, hf]
          · have : (p == e.1) = false := beq_eq_false_iff_ne.mpr he
            have h2 : (e.1 == p) = false := beq_eq_false_iff_ne.mpr (Ne.symm he)
            simp [this, h2]
      · have hstep : cleanupFilesSync failRemove (some p :: rest) d
            = cleanupFilesSync failRemove rest d := by
          simp only [cleanupFilesSync]
          rw [if_neg ?_]
          exact fun hc => hg hc
        rw [hstep, ih]
        apply List.filter_congr
        intro e he
        rw [removedBy_cons]
        have hcases : (p == "") = true ∨ fsHas p d = false := by
          by_cases h1 : (p == "") = true
          · exact Or.inl h1
          · right
            have h1f : (p == "") = false := by simpa using h1
            by_cases h2 : fsHas p d = true
            · exact absurd (Bool.and_eq_true_iff.mpr ⟨by simp [h1f], h2⟩) hg
            · simpa using h2
        rcases hcases with h1 | h1
        · have hp : p = "" := by simpa using h1
          subst hp
          by_cases he1 : e.1 = ""
          · simp [he1]
          · have h3 : ("" == e.1) = false :=
              beq_eq_false_iff_ne.mpr (fun hh => he1 hh.symm)
            simp [h3]
        · have h3 : (e.1 == p) = false := by
            rw [fsHas, List.any_eq_false] at h1
            simpa using h1 e he
          have h4 : (p == e.1) = false := by
            rw [beq_eq_false_iff_ne] at h3 ⊢
            exact fun hh => h3 hh.symm
          simp [h4]

theorem cleanupFilesSyncE_ok (failRemove : String → Bool) :
    ∀ (paths : List (Option String)) (d : Dir),
      cleanupFilesSyncE failRemove paths d
        = Except.ok (cleanupFilesSync failRemove paths d) := by
  intro paths
  induction paths with
  | nil => intro d; rfl
  | cons p? rest ih =>
    intro d
    cases p? with
    | none => exact ih d
    | some p =>
      simp only [cleanupFilesSync, cleanupFilesSyncE, osRemove]
      by_cases h1 : (!(p == "") && fsHas p d) = true
      · by_cases h2 : failRemove p = true
        · simp only [if_pos h1, if_pos h2]
          exact ih d
        · simp only [if_pos h1, if_neg h2]
          exact ih (fsRemove p d)
      · simp only [if_neg h1]
        exact ih d

/-- Claim C9: the workspace release (`cleanup_files_sync`) never propagates
an exception (the exception-monad transcription always returns `ok`, for
every path list — including `None` and empty entries — every removal
failure oracle and every directory state); it deletes each listed path
whose deletion succeeds (truthy, non-failing entries are absent
afterwards, whether or not they existed); and it is idempotent: a second
run on the same paths leaves the directory in the same state as one
run. -/
theorem c9_release_safe (failRemove : String → Bool)
    (paths : List (Option String)) (d : Dir) :
    cleanupFilesSyncE failRemove paths d
      = Except.ok (cleanupFilesSync failRemove paths d)
    ∧ (∀ p, some p ∈ paths → p ≠ "" → failRemove p = false →
        fsHas p (cleanupFilesSync failRemove paths d) = false)
    ∧ cleanupFilesSync failRemove paths (cleanupFilesSync failRemove paths d)
      = cleanupFilesSync failRemove paths d := by
  refine ⟨cleanupFilesSyncE_ok failRemove paths d, ?_, ?_⟩
  · intro p hmem hne hfail
    rw [cleanupFilesSync_eq_filter]
    rw [fsHas, List.any_eq_false]
    intro e hef
    rcases List.mem_filter.mp hef with ⟨_, hkeep⟩
    intro hbeq
    have hep : e.1 = p := beq_iff_eq.mp hbeq
    have hrem : removedBy paths failRemove e.1 = true := by
      rw [removedBy, List.any_eq_true]
      refine ⟨some p, hmem, ?_⟩
      rw [hep]
      simp [hne, hfail]
    rw [hrem] at hkeep
    exact Bool.false_ne_true hkeep
  · simp only [cleanupFilesSync_eq_filter, List.filter_filter]
    apply List.filter_congr
    intro e _
    cases removedBy paths failRemove e.1 <;> rfl

/-- Witness for `c9_release_safe`: a concrete path list with a `None`
entry, an empty-string entry, a path whose removal fails, a duplicate,
and a missing path, over a three-file directory. -/
theorem c9_release_safe_witness :
    cleanupFilesSyncE (fun s => s == "locked")
        [some "a", none, some "", some "locked", some "a", some "gone"]
        [("a", [1]), ("locked", [2]), ("b", [3])]
      = Except.ok (cleanupFilesSync (fun s => s == "locked")
          [some "a", none, some "", some "locked", some "a", some "gone"]
          [("a", [1]), ("locked", [2]), ("b", [3])])
    ∧ fsHas "a" (cleanupFilesSync (fun s => s == "locked")
        [some "a", none, some "", some "locked", some "a", some "gone"]
        [("a", [1]), ("locked", [2]), ("b", [3])]) = false
    ∧ cleanupFilesSync (fun s => s == "locked")
        [some "a", none, some "", some "locked", some "a", some "gone"]
        (cleanupFilesSync (fun s => s == "locked")
          [some "a", none, some "", some "locked", some "a", some "gone"]
          [("a", [1]), ("locked", [2]), ("b", [3])])
      = cleanupFilesSync (fun s => s == "locked")
          [some "a", none, some "", some "locked", some "a", some "gone"]
          [("a", [1]), ("locked", [2]), ("b", [3])] := by
  have h := c9_release_safe (fun s => s == "locked")
    [some "a", none, some "", some "locked", some "a", some "gone"]
    [("a", [1]), ("locked", [2]), ("b", [3])]
  exact ⟨h.1, h.2.1 "a" (by decide) (by decide) (by decide), h.2.2⟩

theorem data_append (a b : String) : (a ++ b).data = a.data ++ b.data := rfl

theorem hexJoin_length (l : List Nat) :
    ((l.map hexByte).join).length = 2 * l.length := by
  induction l with
  | nil => rfl
  | cons x xs ih =>
    have hstep : ((x :: xs).map hexByte).join = hexByte x ++ (xs.map hexByte).join :=
      rfl
    rw [hstep, List.length_append, ih]
    simp only [hexByte, List.length_cons, List.length_nil, List.length_singleton]
    omega

theorem uuid4Bytes_length (bs : List Nat) (h : bs.length = 16) :
    (uuid4Bytes bs).length = 16 := by
  simp [uuid4Bytes, List.length_append, List.length_take, List.length_drop, h]

theorem uuidStr_length (bs : List Nat) (h : bs.length = 16) :
    (uuidStr bs).length = 36 := by
  have hb := uuid4Bytes_length bs h
  show (uuidStr bs).data.length = 36
  simp only [uuidStr, List.length_append, List.length_cons, hexJoin_length,
    List.length_take, List.length_drop, hb]
  omega

theorem inputPathOf_data (t e : String) :
    (inputPathOf t e).data
      = 't' :: 'e' :: 'm' :: 'p' :: '/'
          :: (t.data ++ ('_' :: 'i' :: 'n' :: 'p' :: 'u' :: 't' :: '.' :: e.data)) := by
  show ((("temp/" ++ t) ++ "_input.") ++ e).data = _
  rw [data_append, data_append, data_append, List.append_assoc, List.append_assoc]
  rfl

theorem outputPathOf_data (t f : String) :
    (outputPathOf t f).data
      = 't' :: 'e' :: 'm' :: 'p' :: '/'
          :: (t.data ++ ('_' :: 'o' :: 'u' :: 't' :: 'p' :: 'u' :: 't' :: '.' :: f.data)) := by
  show ((("temp/" ++ t) ++ "_output.") ++ f).data = _
  rw [data_append, data_append, data_append, List.append_assoc, List.append_assoc]
  rfl

theorem token_prefix_split (t1 t2 : String) (s1 s2 : List Char)
    (hlen : t1.length = t2.length)
    (h : 't' :: 'e' :: 'm' :: 'p' :: '/' :: (t1.data ++ s1)
       = 't' :: 'e' :: 'm' :: 'p' :: '/' :: (t2.data ++ s2)) :
    t1 = t2 ∧ s1 = s2 := by
  have h2 : t1.data ++ s1 = t2.data ++ s2 := by
    simpa using h
  obtain ⟨hd, hs⟩ := List.append_inj h2 hlen
  exact ⟨String.ext hd, hs⟩

theorem inputPathOf_ne_outputPathOf (t1 t2 e f : String)
    (hlen : t1.length = t2.length) :
    inputPathOf t1 e ≠ outputPathOf t2 f := by
  intro hpath
  have hd := congrArg String.data hpath
  rw [inputPathOf_data, outputPathOf_data] at hd
  obtain ⟨-, hs⟩ := token_prefix_split t1 t2 _ _ hlen hd
  injection hs with h1 hs
  injection hs with h2 hs
  exact absurd h2 (by decide)

theorem inputPathOf_ne_inputPathOf (t1 t2 e1 e2 : String)
    (hlen : t1.length = t2.length) (hne : t1 ≠ t2) :
    inputPathOf t1 e1 ≠ inputPathOf t2 e2 := by
  intro hpath
  have hd := congrArg String.data hpath
  rw [inputPathOf_data, inputPathOf_data] at hd
  obtain ⟨ht, -⟩ := token_prefix_split t1 t2 _ _ hlen hd
  exact hne ht

theorem outputPathOf_ne_outputPathOf (t1 t2 f1 f2 : String)
    (hlen : t1.length = t2.length) (hne : t1 ≠ t2) :
    outputPathOf t1 f1 ≠ outputPathOf t2 f2 := by
  intro hpath
  have hd := congrArg String.data hpath
  rw [outputPathOf_data, outputPathOf_data] at hd
  obtain ⟨ht, -⟩ := token_prefix_split t1 t2 _ _ hlen hd
  exact hne ht

/-- Claim C8: for two jobs whose `str(uuid.uuid4())` tokens differ, the
four derived workspace paths (`<token>_input.<ext>` and
`<token>_output.<ext>` under the temp directory, as built by the convert
endpoint) are pairwise distinct for every choice of input and output
extensions; in particular a job's input path never equals any path of
the other job, nor its own output path. -/
theorem c8_workspace_isolation (b1 b2 : List Nat) (h1 : b1.length = 16)
    (h2 : b2.length = 16) (hne : uuidStr b1 ≠ uuidStr b2)
    (e1 f1 e2 f2 : String) :
    inputPathOf (uuidStr b1) e1 ≠ outputPathOf (uuidStr b1) f1
    ∧ inputPathOf (uuidStr b1) e1 ≠ inputPathOf (uuidStr b2) e2
    ∧ inputPathOf (uuidStr b1) e1 ≠ outputPathOf (uuidStr b2) f2
    ∧ outputPathOf (uuidStr b1) f1 ≠ inputPathOf (uuidStr b2) e2
    ∧ outputPathOf (uuidStr b1) f1 ≠ outputPathOf (uuidStr b2) f2
    ∧ inputPathOf (uuidStr b2) e2 ≠ outputPathOf (uuidStr b2) f2 := by
  have hl1 := uuidStr_length b1 h1
  have hl2 := uuidStr_length b2 h2
  have hl12 : (uuidStr b1).length = (uuidStr b2).length := by rw [hl1, hl2]
  refine ⟨inputPathOf_ne_outputPathOf _ _ _ _ rfl,
    inputPathOf_ne_inputPathOf _ _ _ _ hl12 hne,
    inputPathOf_ne_outputPathOf _ _ _ _ hl12,
    fun hpath => ?_,
    outputPathOf_ne_outputPathOf _ _ _ _ hl12 hne,
    inputPathOf_ne_outputPathOf _ _ _ _ rfl⟩
  exact inputPathOf_ne_outputPathOf (uuidStr b2) (uuidStr b1) e2 f1 hl12.symm
    hpath.symm

/-- Witness for `c8_workspace_isolation`: two concrete distinct UUID
tokens and concrete extensions. -/
theorem c8_workspace_isolation_witness :
    inputPathOf (uuidStr (List.replicate 16 0)) "mp4"
      ≠ outputPathOf (uuidStr (1 :: List.replicate 15 0)) "avi" :=
  (c8_workspace_isolation (List.replicate 16 0) (1 :: List.replicate 15 0)
    (by decide) (by decide) (by decide) "mp4" "mkv" "mov" "avi").2.2.1
